import Mathlib

/-!
Verification of the SENSORY-LEARNING-COMPANION repository against its
natural-language specification.

Two subsystems are embedded:

* the adaptive quiz UI of
  `src/client/src/pages/IT22213662/SensoryLearningUI.jsx`
  (state machine `startQuizForLesson` / `answerQuestion` /
  `allQuestionsAnswered` / `submitQuizForAdaptation`, and the
  heuristic `simulateServerPrediction`);

* the Quiz Generation Engine.  Its Python implementation
  (`app/ml/processors/quiz_generator.py`) is not part of the repository
  snapshot — only its documentation (`src/server/QUIZ_GENERATOR_GUIDE.md`)
  is — so the engine is modelled from the specification (spec.md §2–§4,
  §6–§8) and the guide.  Each such definition is marked
  `Modelled from the spec`.
-/

namespace SensoryUI

/-- One hard-coded quiz question of `quizQuestionsByLesson`
(SensoryLearningUI.jsx lines 93–150): `{id, text, options, correctIndex}`. -/
structure UIQuestion where
  id : Nat
  text : String
  options : List String
  correctIndex : Nat
deriving DecidableEq, Repr

/-- The `quizQuestionsByLesson` table, keyed by lesson id, copied verbatim
from SensoryLearningUI.jsx lines 93–150. -/
def quizQuestionsByLesson : List (Nat × List UIQuestion) :=
  [ (1, [ ⟨1, "What is 7 + 5?", ["10", "11", "12", "13"], 2⟩,
          ⟨2, "Which is an even number?", ["9", "11", "14", "21"], 2⟩ ]),
    (2, [ ⟨1, "Solve for x: 2x + 3 = 11", ["3", "4", "5", "6"], 1⟩,
          ⟨2, "What is 3x when x = 4?", ["7", "10", "12", "14"], 2⟩ ]),
    (3, [ ⟨1, "A triangle has how many sides?", ["2", "3", "4", "5"], 1⟩,
          ⟨2, "A right angle is:", ["45°", "60°", "90°", "120°"], 2⟩ ]),
    (4, [ ⟨1, "Which is a fraction?", ["0.5", "1/2", "2", "5"], 1⟩,
          ⟨2, "0.25 is equal to:", ["1/2", "1/3", "1/4", "3/4"], 2⟩ ]) ]

/-- The part of the React `quizState` relevant to quiz play
(SensoryLearningUI.jsx lines 18–29).  The wall-clock fields
(`taps`, `startedAt`, `lastInteractionAt`, `idleTimeMs`) are elided:
they never influence question progression or the recorded answers. -/
structure QuizUIState where
  currentQuestionIndex : Nat
  /-- `answers`: recorded `{questionId, isCorrect}` pairs, oldest first. -/
  answers : List (Nat × Bool)
  attempts : Nat
  mistakes : Nat
deriving DecidableEq, Repr

/-- `startQuizForLesson` (lines 155–172) resets the quiz state. -/
def startQuiz : QuizUIState := ⟨0, [], 0, 0⟩

/-- `answerQuestion(optionIndex)` (lines 190–207): looks up the current
question; does nothing when the index is past the end; otherwise records
the answer, bumps `attempts` (and `mistakes` on a wrong answer) and
advances `currentQuestionIndex` only on a correct answer. -/
def answerQuestion (questions : List UIQuestion) (s : QuizUIState)
    (optionIndex : Nat) : QuizUIState :=
  match questions[s.currentQuestionIndex]? with
  | none => s
  | some current =>
    let isCorrect : Bool := optionIndex == current.correctIndex
    { currentQuestionIndex :=
        if isCorrect then s.currentQuestionIndex + 1 else s.currentQuestionIndex,
      answers := s.answers ++ [(current.id, isCorrect)],
      attempts := s.attempts + 1,
      mistakes := s.mistakes + (if isCorrect then 0 else 1) }

/-- `quizState.answers.filter((a) => a.isCorrect).length`. -/
def countCorrect (answers : List (Nat × Bool)) : Nat :=
  (answers.filter (fun a => a.2)).length

/-- `allQuestionsAnswered` (lines 209–215):
`questions.length > 0 && correct answers ≥ questions.length`. -/
def allQuestionsAnswered (questions : List UIQuestion) (s : QuizUIState) : Prop :=
  0 < questions.length ∧ questions.length ≤ countCorrect s.answers

instance (questions : List UIQuestion) (s : QuizUIState) :
    Decidable (allQuestionsAnswered questions s) := by
  unfold allQuestionsAnswered; infer_instance

/-- States reachable from `startQuizForLesson` by `answerQuestion` calls. -/
inductive Reachable (questions : List UIQuestion) : QuizUIState → Prop
  | start : Reachable questions startQuiz
  | step {s : QuizUIState} (optionIndex : Nat) :
      Reachable questions s →
      Reachable questions (answerQuestion questions s optionIndex)

/-- `Math.round((correctCount / questions.length) * 100)` of
`submitQuizForAdaptation` (line 271), over exact rationals.  The only
case the claims need (`correctCount = length`) is float-exact. -/
def scoreOf (correctCount len : Nat) : Int :=
  round (((correctCount : ℚ) / (len : ℚ)) * 100)

/-- `recommendedActivity` record of `simulateServerPrediction`. -/
structure Activity where
  difficulty : String
  label : String
  description : String
deriving DecidableEq, Repr

/-- Return value of `simulateServerPrediction`. -/
structure Prediction where
  predictedLoad : String
  recommendedActivity : Activity
deriving DecidableEq, Repr

/-- The `let load` computation of `simulateServerPrediction`
(SensoryLearningUI.jsx lines 225–230).  The JavaScript float comparison
`mistakes > attempts * 0.5` is exact for the integer ranges involved and
is modelled over `ℚ`. -/
def predictedLoadOf (quizScore : Int)
    (attempts mistakes totalTimeMs : Nat) : String :=
  if quizScore < 50 ∨ (mistakes : ℚ) > (attempts : ℚ) * 0.5 ∨ totalTimeMs > 120000
  then "high"
  else if quizScore > 85 ∧ mistakes = 0 ∧ totalTimeMs < 45000
  then "low"
  else "medium"

/-- The `let activity` computation of `simulateServerPrediction`
(SensoryLearningUI.jsx lines 232–254). -/
def activityOf (load : String) : Activity :=
  if load = "high" then
    ⟨"Easier", "Guided Practice",
     "Short, scaffolded practice with hints and step-by-step feedback to reduce overload."⟩
  else if load = "low" then
    ⟨"Harder", "Challenge Extension",
     "More complex, multi-step problems designed to increase challenge and prevent underload."⟩
  else
    ⟨"Balanced", "Adaptive Drill",
     "A mixed set of items that keeps you engaged at an optimal difficulty level."⟩

/-- `simulateServerPrediction` (SensoryLearningUI.jsx lines 217–263),
with the simulated network latency elided: a pure function of
`quizScore`, `attempts`, `mistakes` and `totalTimeMs`. -/
def simulateServerPrediction (quizScore : Int)
    (attempts mistakes totalTimeMs : Nat) : Prediction :=
  ⟨predictedLoadOf quizScore attempts mistakes totalTimeMs,
   activityOf (predictedLoadOf quizScore attempts mistakes totalTimeMs)⟩

end SensoryUI

namespace QuizEngine

/-!
Modelled from the spec: the Quiz Generation Engine
(`app/ml/processors/quiz_generator.py`) is absent from the repository
snapshot; the definitions below follow spec.md §2–§4, §6–§8 and
`src/server/QUIZ_GENERATOR_GUIDE.md`.  All seeded randomness (true/false
negation choice, option shuffling) follows the fixed-seed deterministic
path the spec prescribes for rule-only reproducibility (spec.md §9).
-/

/-!
String processing is done over `List Char` by structural recursion (the
corresponding core `String` functions use well-founded recursion on byte
positions, which the kernel cannot evaluate); `String.mk`/`String.data`
convert at the boundary.
-/

/-- Character-list splitter; `cur` holds the current chunk, reversed.
Same semantics as `String.split`: separators delimit (possibly empty)
chunks. -/
def splitListAux (p : Char → Bool) (cur : List Char) :
    List Char → List (List Char)
  | [] => [cur.reverse]
  | c :: cs =>
    if p c then cur.reverse :: splitListAux p [] cs
    else splitListAux p (c :: cur) cs

/-- Split a character list at every character satisfying `p`. -/
def splitList (p : Char → Bool) (cs : List Char) : List (List Char) :=
  splitListAux p [] cs

/-- Trim leading and trailing whitespace of a character list. -/
def trimList (cs : List Char) : List Char :=
  ((cs.dropWhile Char.isWhitespace).reverse.dropWhile Char.isWhitespace).reverse

/-- Whitespace-trim of a string. -/
def strTrim (s : String) : String := String.mk (trimList s.data)

/-- Lowercasing of a string. -/
def strLower (s : String) : String := String.mk (s.data.map Char.toLower)

/-- Normalization key: lowercased, whitespace-trimmed (spec.md §3). -/
def normKey (s : String) : String := strLower (strTrim s)

/-- Sentence-terminal punctuation (spec.md §4.1). -/
def isTerminal (c : Char) : Bool := c == '.' || c == '!' || c == '?'

/-- Modelled from the spec: the Text Normalizer (§4.1) splits raw text at
terminal punctuation, trims whitespace and discards empty fragments. -/
def splitSentences (raw : String) : List String :=
  (((splitList isTerminal raw.data).map trimList).map String.mk).filter
    (fun s => !(s == ""))

/-- Words of a sentence (space-separated, empties dropped). -/
def wordsOf (s : String) : List String :=
  ((splitList (fun c => c == ' ') s.data).map String.mk).filter
    (fun w => !(w == ""))

/-- A word starting with an uppercase letter. -/
def isCapWord (w : String) : Bool :=
  match w.toList with
  | c :: _ => c.isUpper
  | [] => false

/-- Maximal runs of consecutive capitalized words; `cur` holds the
current run, reversed. -/
def capRunsGo (cur : List String) : List String → List (List String)
  | [] => if cur.isEmpty then [] else [cur.reverse]
  | w :: ws =>
    if isCapWord w then capRunsGo (w :: cur) ws
    else if cur.isEmpty then capRunsGo [] ws
    else cur.reverse :: capRunsGo [] ws

/-- Join strings with a separator (structural-recursion replacement for
`String.intercalate`). -/
def joinSep (sep : String) : List String → String
  | [] => ""
  | [w] => w
  | w :: ws => w ++ sep ++ joinSep sep ws

/-- Modelled from the spec: signal (a) of §4.2, capitalized multi-word
sequences of one sentence. -/
def capConcepts (sent : String) : List String :=
  ((capRunsGo [] (wordsOf sent)).filter (fun r => 2 ≤ r.length)).map
    (joinSep " ")

/-- Elements at odd positions of a list (the inside-quotes chunks after
splitting a sentence at quote characters). -/
def oddChunks {α : Type} : List α → List α
  | _ :: b :: rest => b :: oddChunks rest
  | _ => []

/-- Modelled from the spec: signal (b) of §4.2, quoted terms. -/
def quotedTerms (sent : String) : List String :=
  (((oddChunks (splitList (fun c => c == '"') sent.data)).map trimList).map
    String.mk).filter (fun t => !(t == ""))

/-- Keep only letters and digits, lowercased — strips punctuation glued
to a word before frequency counting. -/
def stripPunct (w : String) : String :=
  String.mk ((w.data.map Char.toLower).filter (fun c => c.isAlpha || c.isDigit))

/-- Stop words removed before frequency counting (§4.2). -/
def stopWords : List String :=
  ["the", "a", "an", "is", "are", "was", "were", "of", "to", "and",
   "in", "on", "for", "with", "as", "by", "that", "it", "this"]

/-- Lowercased, punctuation-stripped words of the whole lesson. -/
def lowerWords (sents : List String) : List String :=
  sents.flatMap (fun s => (wordsOf s).map stripPunct)

/-- Occurrences of `w` in `ws`. -/
def countOcc (w : String) (ws : List String) : Nat :=
  (ws.filter (fun x => x == w)).length

/-- Modelled from the spec: signal (c) of §4.2, non-stop-words exceeding
the frequency threshold (the model fixes the threshold at 3). -/
def freqConcepts (sents : List String) : List String :=
  let ws := lowerWords sents
  ws.dedup.filter (fun w =>
    !(w == "") && !(stopWords.contains w) && decide (3 < countOcc w ws))

/-- One extraction signal: a candidate concept text, its score
contribution and its originating sentence. -/
structure Signal where
  text : String
  score : Nat
  sentence : String
deriving DecidableEq, Repr

/-- First sentence containing the (lowercased, stripped) word `t`. -/
def firstSentenceContaining (t : String) (sents : List String) : String :=
  match sents.find? (fun s => (wordsOf s).any (fun w => stripPunct w == t)) with
  | some s => s
  | none => sents.headD ""

/-- Modelled from the spec: the three rule-based signals of §4.2, each
contributing independently to a concept's score (capitalized run 3,
quoted term 2, frequent term 1). -/
def ruleSignals (sents : List String) : List Signal :=
  (sents.flatMap (fun s =>
    (capConcepts s).map (fun t => ⟨t, 3, s⟩) ++
    (quotedTerms s).map (fun t => ⟨t, 2, s⟩))) ++
  (freqConcepts sents).map (fun t => ⟨t, 1, firstSentenceContaining t sents⟩)

/-- A merged concept: `{text, score}` plus its originating sentence and
first-occurrence position used for the spec's tie-break (§4.2). -/
structure Concept where
  text : String
  score : Nat
  sentence : String
  firstIdx : Nat
deriving DecidableEq, Repr

/-- Merge one signal into the accumulator: additive scoring keyed by
normalized text (§4.2). -/
def addSignal (acc : List Concept) (sig : Signal) : List Concept :=
  if acc.any (fun c => normKey c.text == normKey sig.text) then
    acc.map (fun c =>
      if normKey c.text == normKey sig.text
      then { c with score := c.score + sig.score } else c)
  else acc ++ [⟨sig.text, sig.score, sig.sentence, acc.length⟩]

/-- Merge all signals by normalized text with additive scoring. -/
def mergeSignals (sigs : List Signal) : List Concept :=
  sigs.foldl addSignal []

/-- Comparator: descending score, ties broken by first occurrence. -/
def conceptLE (a b : Concept) : Bool :=
  b.score < a.score || (a.score == b.score && a.firstIdx ≤ b.firstIdx)

/-- Insertion step of the deterministic insertion sort. -/
def insertLe {α : Type} (le : α → α → Bool) (a : α) : List α → List α
  | [] => [a]
  | b :: l => if le a b then a :: b :: l else b :: insertLe le a l

/-- Deterministic insertion sort by a boolean comparator. -/
def sortByLe {α : Type} (le : α → α → Bool) (l : List α) : List α :=
  l.foldr (insertLe le) []

/-- Modelled from the spec: the Capability Resolver's three independent
optional capabilities (§4.7, §9): syntactic analysis (extra concept
candidates per sentence), semantic-similarity scoring, and generative
rewriting (which may fail, returning `none`).  A capability that failed
to load is `none`. -/
structure Capabilities where
  syntactic : Option (String → List String)
  similarity : Option (String → String → Nat)
  rewriting : Option (String → Option String)

/-- All three capabilities unavailable (or `use_ml=false`). -/
def noCaps : Capabilities := ⟨none, none, none⟩

/-- `use_ml=False` at call time forces all three capabilities off
regardless of availability (§4.7). -/
def effCaps (caps : Capabilities) : Bool → Capabilities
  | true => caps
  | false => noCaps

/-- Modelled from the spec: signals contributed by the syntactic-analysis
capability when available (§4.2), score contribution 2 per candidate. -/
def synSignals (caps : Capabilities) (sents : List String) : List Signal :=
  match caps.syntactic with
  | some f => sents.flatMap (fun s => (f s).map (fun t => ⟨t, 2, s⟩))
  | none => []

/-- Modelled from the spec: the Concept Extractor (§4.2): rule signals
plus optional syntactic signals, merged by normalized text with additive
scoring, sorted by descending score with first-occurrence tie-break. -/
def conceptsOf (caps : Capabilities) (sents : List String) : List Concept :=
  sortByLe conceptLE (mergeSignals (ruleSignals sents ++ synSignals caps sents))

/-- The three relation kinds of a Fact (spec.md §3). -/
inductive Relation
  | definition
  | relationship
  | causeEffect
deriving DecidableEq, Repr

/-- A structured fact derived from one sentence (spec.md §3);
`confidence` is a fixed per-pattern-kind constant. -/
structure Fact where
  subject : String
  relation : Relation
  object : String
  source : String
  confidence : Nat
deriving DecidableEq, Repr

/-- Does `cs` start with the pattern `pat`? -/
def startsWithPat : List Char → List Char → Bool
  | [], _ => true
  | _ :: _, [] => false
  | p :: ps, c :: cs => p == c && startsWithPat ps cs

/-- Split a character list around the first occurrence of `pat`,
returning the parts before and after it. -/
def findSplit (pat : List Char) : List Char → Option (List Char × List Char)
  | [] => none
  | c :: cs =>
    if startsWithPat pat (c :: cs) then some ([], (c :: cs).drop pat.length)
    else
      match findSplit pat cs with
      | some (pre, post) => some (c :: pre, post)
      | none => none

/-- Split `s` at the first occurrence of the surface pattern `sep`,
yielding the trimmed subject and object clauses. -/
def matchPattern (sep : String) (s : String) : Option (String × String) :=
  match findSplit sep.data s.data with
  | some (pre, post) => some (String.mk (trimList pre), String.mk (trimList post))
  | none => none

/-- First pattern of the list that matches the sentence. -/
def firstMatch (seps : List String) (s : String) : Option (String × String) :=
  match seps with
  | [] => none
  | sep :: rest =>
    match matchPattern sep s with
    | some r => some r
    | none => firstMatch rest s

/-- Definition patterns: "X is/are Y" (§4.3). -/
def defSeps : List String := [" is ", " are "]

/-- Relationship patterns: "X relates to / causes / affects / depends on Y". -/
def relSeps : List String :=
  [" relates to ", " causes ", " affects ", " depends on "]

/-- Cause-effect patterns: "X leads to / results in Y". -/
def causeSeps : List String := [" leads to ", " results in "]

/-- Modelled from the spec: the Fact Extractor (§4.3).  Patterns are
evaluated definition → relationship → cause-effect; the first matching
pattern per sentence wins; a sentence with no match yields no Fact. -/
def extractFact (s : String) : Option Fact :=
  match firstMatch defSeps s with
  | some (x, y) => some ⟨x, .definition, y, s, 3⟩
  | none =>
    match firstMatch relSeps s with
    | some (x, y) => some ⟨x, .relationship, y, s, 2⟩
    | none =>
      match firstMatch causeSeps s with
      | some (x, y) => some ⟨x, .causeEffect, y, s, 2⟩
      | none => none

/-- Facts of all sentences, in sentence order. -/
def factsOf (sents : List String) : List Fact :=
  sents.filterMap extractFact

/-- QuestionCandidate categories (spec.md §3). -/
inductive Category
  | definition
  | relationship
  | factual
  | tfStatement
deriving DecidableEq, Repr

/-- A QuestionCandidate (spec.md §3): category, templated stem, correct
answer text, the near-miss transformation source (`alt`, the supporting
fact's subject — used by distractor signal (c) of §4.5), and for
true/false statements the statement's actual truth value. -/
structure Candidate where
  cat : Category
  stem : String
  correct : String
  alt : String
  isTrue : Bool
deriving DecidableEq, Repr

/-- Is this a true/false-statement candidate? -/
def isTF (c : Candidate) : Bool :=
  match c.cat with
  | .tfStatement => true
  | _ => false

/-- Modelled from the spec: multiple-choice templates of §4.4 for facts.
Definition fact → "What is X?"; relationship fact → "How does X relate
to Y?"; cause-effect facts feed only true/false statements. -/
def mcFromFact (f : Fact) : Option Candidate :=
  match f.relation with
  | .definition =>
      some ⟨.definition, "What is " ++ f.subject ++ "?", f.object, f.subject, true⟩
  | .relationship =>
      some ⟨.relationship, "How does " ++ f.subject ++ " relate to " ++ f.object ++ "?",
            f.object, f.subject, true⟩
  | .causeEffect => none

/-- Does the concept lack a fact (no fact subject matches it)? (§4.4) -/
def lacksFact (facts : List Fact) (c : Concept) : Bool :=
  facts.all (fun f => !(normKey f.subject == normKey c.text))

/-- Modelled from the spec: the factual template of §4.4 for a
high-score concept lacking a fact, using the concept's originating
sentence as the correct answer text. -/
def conceptCand (c : Concept) : Candidate :=
  ⟨.factual, "According to the lesson, what is true about " ++ c.text ++ "?",
   c.sentence, c.text, true⟩

/-- The template-driven negated statement for a fact (§4.4): simple
negation substitution keyed by the relation kind. -/
def negateFact (f : Fact) : String :=
  match f.relation with
  | .definition => f.subject ++ " is not " ++ f.object
  | .relationship => f.subject ++ " does not relate to " ++ f.object
  | .causeEffect => f.subject ++ " does not lead to " ++ f.object

/-- Modelled from the spec: the true/false template of §4.4.  The spec's
"50% chance the statement is negated" is drawn from the fixed-seed
deterministic path (§9); the model negates the odd-indexed facts.  The
`isTrue` flag records the statement's actual truth value. -/
def tfFromFact (i : Nat) (f : Fact) : Candidate :=
  if i % 2 = 0 then ⟨.tfStatement, "True or False: " ++ f.source, "", "", true⟩
  else ⟨.tfStatement, "True or False: " ++ negateFact f, "", "", false⟩

/-- Indexed map, the index starting at `i`. -/
def mapWithIndex {α β : Type} (f : Nat → α → β) : Nat → List α → List β
  | _, [] => []
  | i, a :: l => f i a :: mapWithIndex f (i + 1) l

/-- Modelled from the spec: the Question Template Engine (§4.4):
multiple-choice candidates from facts and from concepts lacking a fact,
true/false candidates from every fact, deduplicated by stem text. -/
def candidatesOf (concepts : List Concept) (facts : List Fact) : List Candidate :=
  let mc := facts.filterMap mcFromFact ++
    (concepts.filter (lacksFact facts)).map conceptCand
  let tf := mapWithIndex tfFromFact 0 facts
  List.pwFilter (fun a b => a.stem ≠ b.stem) (mc ++ tf)

/-- Generic filler distractors of §4.5 signal (b). -/
def fillers : List String := ["None of the above", "All of the above"]

/-- Similarity upper bound excluding near-paraphrases of the correct
answer (§4.5). -/
def simUpperBound : Nat := 95

/-- Distractor candidate pool of §4.5: (a) other extracted concepts'
sentences, (c) the near-miss transformation of the correct answer,
(b) generic fillers. -/
def distractorPool (concepts : List Concept) (c : Candidate) : List String :=
  concepts.map (fun k => k.sentence) ++ [c.alt] ++ fillers

/-- Modelled from the spec: the Distractor Generator (§4.5).  The pool is
filtered of empties and of near-duplicates of the correct answer and of
each other (case-insensitive, trimmed).  With the semantic-similarity
capability the remaining candidates below the paraphrase bound are
ranked by similarity to the correct answer, most similar first; without
it the rule-based pool order stands.  Exactly 3 distractors are selected
when possible. -/
def pickDistractors (caps : Capabilities) (concepts : List Concept)
    (c : Candidate) : List String :=
  let cleaned := List.pwFilter (fun a b => normKey a ≠ normKey b)
    ((distractorPool concepts c).filter
      (fun d => !(d == "") && !(normKey d == normKey c.correct)))
  match caps.similarity with
  | some sim =>
      (sortByLe (fun a b => sim c.correct b ≤ sim c.correct a)
        (cleaned.filter (fun d => decide (sim c.correct d < simUpperBound)))).take 3
  | none => cleaned.take 3

/-- Modelled from the spec: the optional Question Rewriter (§4.6),
applied only to definition and relationship stems; any failure (`none`)
silently keeps the templated stem. -/
def applyRewrite (caps : Capabilities) (c : Candidate) : String :=
  match caps.rewriting with
  | some f =>
      if c.cat = .definition ∨ c.cat = .relationship
      then (f c.stem).getD c.stem
      else c.stem
  | none => c.stem

/-- Question type (spec.md §3). -/
inductive QType
  | multiple
  | truefalse
deriving DecidableEq, Repr

/-- A returned Question (spec.md §3, §6; guide "Question Format"):
`{id, type, question, options, correct_index}`.  The source field
`type` is named `qtype` here because `type` is reserved-adjacent. -/
structure Question where
  id : String
  qtype : QType
  question : String
  options : List String
  correct_index : Nat
deriving DecidableEq, Repr

/-- Insert `a` at position `k` (clamped to the end) of a list. -/
def insertAt {α : Type} : Nat → α → List α → List α
  | 0, a, l => a :: l
  | _ + 1, a, [] => [a]
  | k + 1, a, b :: l => b :: insertAt k a l

/-- Modelled from the spec: build one final Question from a candidate
(§4.6, §4.8).  True/false questions get the fixed option pair
`["True", "False"]` with `correct_index` reflecting the statement's
truth value (§3 invariant 3).  Multiple-choice questions get the
(optionally rewritten) stem and the correct answer inserted among the
distractors at the seeded shuffle position `i % (|distractors| + 1)`,
recorded as `correct_index`.  Ids are unique stable identifiers. -/
def mkQuestion (caps : Capabilities) (concepts : List Concept)
    (i : Nat) (c : Candidate) : Question :=
  if isTF c then
    ⟨"q" ++ toString (i + 1), .truefalse, c.stem, ["True", "False"],
     if c.isTrue then 0 else 1⟩
  else
    let ds := pickDistractors caps concepts c
    let k := i % (ds.length + 1)
    ⟨"q" ++ toString (i + 1), .multiple, applyRewrite caps c,
     insertAt k c.correct ds, k⟩

/-- Multiple-choice target count: `round(0.6 × total)` (§3 invariant 5).
`0.6 × total = 3·total/5` has fractional part in `{0, .2, .4, .6, .8}`,
never `.5`, so rounding to nearest is `⌊(3·total + 2) / 5⌋`
(`roundSixty_eq` below proves the identity). -/
def roundSixty (total : Nat) : Nat := (3 * total + 2) / 5

/-- Modelled from the spec: the Quiz Assembler (§4.8).  Takes up to `n`
candidates, aims at the 60/40 multiple/true-false ratio, back-fills a
shortfall in one category from the other, and formats the final
questions (multiple-choice block first, then true/false). -/
def assemble (caps : Capabilities) (n : Nat) (cands : List Candidate)
    (concepts : List Concept) : List Question :=
  let mc := cands.filter (fun c => !(isTF c))
  let tf := cands.filter isTF
  let total := min n cands.length
  let mcTake := min (roundSixty total) mc.length
  let tfTake := min (total - mcTake) tf.length
  let chosen := mc.take (total - tfTake) ++ tf.take tfTake
  mapWithIndex (mkQuestion caps concepts) 0 chosen

/-- The error taxonomy of spec.md §7.  Only `missingContent` is ever
surfaced to the caller; the other kinds are internal and absorbed. -/
inductive QuizError
  | missingContent
  | insufficientFacts
  | modelUnavailable
  | rewriteFailure
deriving DecidableEq, Repr

/-- Core pipeline on already-normalized sentences with resolved
capabilities. -/
def generateCore (caps : Capabilities) (sents : List String) (n : Nat) :
    List Question :=
  assemble caps n
    (candidatesOf (conceptsOf caps sents) (factsOf sents))
    (conceptsOf caps sents)

/-- Modelled from the spec: the single entry point (§6)
`generate_quiz(lesson_text, num_questions = 10, use_ml = true)`
(concretely named `generate_quiz_from_content` in the guide), here also
parametrized by the process-start capability state the Capability
Resolver produced (§4.7).  Fails with `MissingContentError` when zero
usable sentences remain after normalization (§4.1); otherwise returns
the assembled question sequence. -/
def generate_quiz (caps : Capabilities) (lesson_text : String)
    (num_questions : Nat := 10) (use_ml : Bool := true) :
    Except QuizError (List Question) :=
  match splitSentences lesson_text with
  | [] => .error .missingContent
  | s :: ss => .ok (generateCore (effCaps caps use_ml) (s :: ss) num_questions)

/-- The candidates the pipeline derives from a lesson text — the
"extracted distinct facts/concepts" the claims quantify over. -/
def candidatesFromText (caps : Capabilities) (lesson_text : String)
    (use_ml : Bool) : List Candidate :=
  candidatesOf (conceptsOf (effCaps caps use_ml) (splitSentences lesson_text))
    (factsOf (splitSentences lesson_text))

/-- The question list of a successful result (`[]` on error). -/
def okQuestions : Except QuizError (List Question) → List Question
  | .ok qs => qs
  | .error _ => []

/-- Did the call succeed? -/
def isOkB : Except QuizError (List Question) → Bool
  | .ok _ => true
  | .error _ => false

/-- Count of multiple-choice questions in a quiz. -/
def countMultiple (qs : List Question) : Nat :=
  (qs.filter (fun q => q.qtype == .multiple)).length

/-- Count of true/false questions in a quiz. -/
def countTrueFalse (qs : List Question) : Nat :=
  (qs.filter (fun q => q.qtype == .truefalse)).length

/-- Case-insensitive, whitespace-trimmed distinctness of a question's
options (§3 invariant 2). -/
def optionsDistinct (q : Question) : Prop :=
  List.Pairwise (fun a b => normKey a ≠ normKey b) q.options

instance : DecidableEq (Except QuizError (List Question))
  | .ok a, .ok b => decidable_of_iff (a = b) (by simp)
  | .ok _, .error _ => .isFalse (by simp)
  | .error _, .ok _ => .isFalse (by simp)
  | .error a, .error b => decidable_of_iff (a = b) (by simp)

/-!  ### Helper lemmas  -/

theorem mapWithIndex_length {α β : Type} (f : Nat → α → β) :
    ∀ (i : Nat) (l : List α), (mapWithIndex f i l).length = l.length := by
  intro i l
  induction l generalizing i with
  | nil => rfl
  | cons a l ih => simp [mapWithIndex, ih]

theorem mem_mapWithIndex {α β : Type} {f : Nat → α → β} {b : β} :
    ∀ {i : Nat} {l : List α}, b ∈ mapWithIndex f i l → ∃ j a, a ∈ l ∧ b = f j a := by
  intro i l
  induction l generalizing i with
  | nil => intro h; simp [mapWithIndex] at h
  | cons a l ih =>
    intro h
    simp only [mapWithIndex] at h
    rcases List.mem_cons.mp h with rfl | h
    · exact ⟨i, a, List.mem_cons_self a l, rfl⟩
    · obtain ⟨j, a', ha', rfl⟩ := ih h
      exact ⟨j, a', List.mem_cons_of_mem _ ha', rfl⟩

theorem mapWithIndex_append {α β : Type} (f : Nat → α → β) :
    ∀ (i : Nat) (l₁ l₂ : List α),
      mapWithIndex f i (l₁ ++ l₂) =
        mapWithIndex f i l₁ ++ mapWithIndex f (i + l₁.length) l₂ := by
  intro i l₁ l₂
  induction l₁ generalizing i with
  | nil => simp [mapWithIndex]
  | cons a l ih =>
    have harg : i + 1 + l.length = i + (l.length + 1) := by omega
    simp only [List.cons_append, mapWithIndex, List.length_cons, List.append_eq]
    rw [ih, harg]

theorem insertAt_length {α : Type} (a : α) :
    ∀ (k : Nat) (l : List α), (insertAt k a l).length = l.length + 1 := by
  intro k l
  induction l generalizing k with
  | nil => cases k <;> rfl
  | cons b l ih => cases k with
    | zero => rfl
    | succ k => simp [insertAt, ih]

theorem insertAt_subset {α : Type} (a : α) :
    ∀ (k : Nat) (l : List α), insertAt k a l ⊆ a :: l := by
  intro k l
  induction l generalizing k with
  | nil => cases k <;> simp [insertAt]
  | cons b l ih =>
    cases k with
    | zero => simp [insertAt]
    | succ k =>
      intro x hx
      simp only [insertAt] at hx
      rcases List.mem_cons.mp hx with rfl | hx
      · exact List.mem_cons_of_mem _ (List.mem_cons_self _ _)
      · rcases List.mem_cons.mp (ih k hx) with rfl | hx
        · exact List.mem_cons_self _ _
        · exact List.mem_cons_of_mem _ (List.mem_cons_of_mem _ hx)

theorem insertAt_pairwise {α : Type} {R : α → α → Prop} {a : α} :
    ∀ {k : Nat} {l : List α}, List.Pairwise R l →
      (∀ b ∈ l, R a b ∧ R b a) → List.Pairwise R (insertAt k a l) := by
  intro k l hl ha
  induction l generalizing k with
  | nil =>
    cases k <;> exact List.pairwise_singleton R a
  | cons b l ih =>
    cases k with
    | zero =>
      exact List.Pairwise.cons (fun c hc => (ha c hc).1) hl
    | succ k =>
      rcases hl with _ | ⟨hb, hl⟩
      refine List.Pairwise.cons ?_ (ih hl fun c hc => ha c (List.mem_cons_of_mem _ hc))
      intro c hc
      rcases List.mem_cons.mp (insertAt_subset a k l hc) with rfl | hc'
      · exact (ha b (List.mem_cons_self b l)).2
      · exact hb c hc'

theorem insertLe_perm {α : Type} (le : α → α → Bool) (a : α) :
    ∀ (l : List α), (insertLe le a l).Perm (a :: l) := by
  intro l
  induction l with
  | nil => exact List.Perm.refl _
  | cons b l ih =>
    by_cases h : le a b = true
    · simp [insertLe, h]
    · simp only [insertLe, h, if_false]
      exact (List.Perm.cons b ih).trans (List.Perm.swap a b l)

theorem sortByLe_perm {α : Type} (le : α → α → Bool) :
    ∀ (l : List α), (sortByLe le l).Perm l := by
  intro l
  induction l with
  | nil => exact List.Perm.refl _
  | cons a l ih =>
    exact (insertLe_perm le a (sortByLe le l)).trans (List.Perm.cons a ih)

theorem length_filter_not_add {α : Type} (p : α → Bool) (l : List α) :
    (l.filter (fun a => !(p a))).length + (l.filter p).length = l.length := by
  induction l with
  | nil => rfl
  | cons a l ih =>
    by_cases h : p a = true <;> simp [List.filter, h] <;> omega

/-- The distinctness relation on option texts is symmetric. -/
theorem normKeyNe_symm : ∀ {a b : String}, normKey a ≠ normKey b → normKey b ≠ normKey a :=
  fun h => fun e => h e.symm

theorem pickDistractors_pairwise (caps : Capabilities) (concepts : List Concept)
    (c : Candidate) :
    List.Pairwise (fun a b => normKey a ≠ normKey b) (pickDistractors caps concepts c) := by
  unfold pickDistractors
  have hclean := List.pairwise_pwFilter (R := fun a b => normKey a ≠ normKey b)
    ((distractorPool concepts c).filter
      (fun d => !(d == "") && !(normKey d == normKey c.correct)))
  cases hsim : caps.similarity with
  | none =>
    exact List.Pairwise.sublist (List.take_sublist _ _) hclean
  | some sim =>
    refine List.Pairwise.sublist (List.take_sublist _ _) ?_
    refine (List.Perm.pairwise_iff normKeyNe_symm (sortByLe_perm _ _)).mpr ?_
    exact List.Pairwise.sublist (List.filter_sublist _) hclean

theorem pickDistractors_ne_correct (caps : Capabilities) (concepts : List Concept)
    (c : Candidate) :
    ∀ d ∈ pickDistractors caps concepts c, normKey d ≠ normKey c.correct := by
  intro d hd
  have hpool : d ∈ (distractorPool concepts c).filter
      (fun d => !(d == "") && !(normKey d == normKey c.correct)) := by
    unfold pickDistractors at hd
    cases hsim : caps.similarity with
    | none =>
      rw [hsim] at hd
      exact (List.pwFilter_sublist _).subset ((List.take_sublist _ _).subset hd)
    | some sim =>
      rw [hsim] at hd
      have h₁ := (List.take_sublist 3 _).subset hd
      have h₂ := (sortByLe_perm (fun a b => sim c.correct b ≤ sim c.correct a) _).mem_iff.mp h₁
      have h₃ := (List.filter_sublist _).subset h₂
      exact (List.pwFilter_sublist _).subset h₃
  have := (List.mem_filter.mp hpool).2
  simp only [Bool.and_eq_true, Bool.not_eq_true', beq_eq_false_iff_ne] at this
  exact this.2

/-- The type of an assembled question is fixed by its candidate's
category. -/
theorem mkQuestion_qtype (caps : Capabilities) (concepts : List Concept)
    (i : Nat) (c : Candidate) :
    (mkQuestion caps concepts i c).qtype =
      if isTF c then QType.truefalse else QType.multiple := by
  unfold mkQuestion
  by_cases h : isTF c <;> simp [h]

/-- §3 invariants 1 and 2 hold for every assembled question. -/
theorem mkQuestion_invariant (caps : Capabilities) (concepts : List Concept)
    (i : Nat) (c : Candidate) :
    (mkQuestion caps concepts i c).correct_index <
      (mkQuestion caps concepts i c).options.length ∧
    optionsDistinct (mkQuestion caps concepts i c) := by
  cases h : isTF c
  · constructor
    · simp only [mkQuestion, h, Bool.false_eq_true, if_false, insertAt_length]
      exact Nat.lt_succ_of_le (Nat.le_of_lt_succ (Nat.mod_lt _ (Nat.succ_pos _)))
    · unfold optionsDistinct
      simp only [mkQuestion, h, Bool.false_eq_true, if_false]
      refine insertAt_pairwise (pickDistractors_pairwise caps concepts c) ?_
      intro b hb
      have := pickDistractors_ne_correct caps concepts c b hb
      exact ⟨normKeyNe_symm this, this⟩
  · constructor
    · simp only [mkQuestion, h, if_true]
      by_cases ht : c.isTrue <;> simp [ht]
    · unfold optionsDistinct
      simp only [mkQuestion, h, if_true]
      decide

/-- Every assembled question comes from a candidate of the pool. -/
theorem mem_assemble {caps : Capabilities} {n : Nat} {cands : List Candidate}
    {concepts : List Concept} {q : Question}
    (hq : q ∈ assemble caps n cands concepts) :
    ∃ i c, c ∈ cands ∧ q = mkQuestion caps concepts i c := by
  unfold assemble at hq
  obtain ⟨i, c, hc, rfl⟩ := mem_mapWithIndex hq
  refine ⟨i, c, ?_, rfl⟩
  rcases List.mem_append.mp hc with h | h
  · exact (List.filter_sublist _).subset ((List.take_sublist _ _).subset h)
  · exact (List.filter_sublist _).subset ((List.take_sublist _ _).subset h)

/-- The assembler returns `min n |candidates|` questions: all requested
when supply suffices, the whole candidate pool otherwise (§4.8). -/
theorem assemble_length (caps : Capabilities) (n : Nat) (cands : List Candidate)
    (concepts : List Concept) :
    (assemble caps n cands concepts).length = min n cands.length := by
  unfold assemble
  have hpart := length_filter_not_add isTF cands
  simp only [mapWithIndex_length, List.length_append, List.length_take]
  omega

/-- Counting questions of one type distributes over list append. -/
theorem countMultiple_append (qs₁ qs₂ : List Question) :
    countMultiple (qs₁ ++ qs₂) = countMultiple qs₁ + countMultiple qs₂ := by
  simp [countMultiple, List.filter_append]

theorem countTrueFalse_append (qs₁ qs₂ : List Question) :
    countTrueFalse (qs₁ ++ qs₂) = countTrueFalse qs₁ + countTrueFalse qs₂ := by
  simp [countTrueFalse, List.filter_append]

/-- A block of non-true/false candidates assembles to multiple-choice
questions only. -/
theorem countMultiple_block_mc (caps : Capabilities) (concepts : List Concept) :
    ∀ (i : Nat) (l : List Candidate), (∀ c ∈ l, isTF c = false) →
      countMultiple (mapWithIndex (mkQuestion caps concepts) i l) = l.length ∧
      countTrueFalse (mapWithIndex (mkQuestion caps concepts) i l) = 0 := by
  intro i l
  induction l generalizing i with
  | nil => intro _; exact ⟨rfl, rfl⟩
  | cons c l ih =>
    intro h
    have hc := h c (List.mem_cons_self c l)
    obtain ⟨ihm, iht⟩ := ih (i + 1) (fun c' hc' => h c' (List.mem_cons_of_mem _ hc'))
    unfold countMultiple at ihm ⊢
    unfold countTrueFalse at iht ⊢
    have e1 : ((QType.multiple == QType.multiple) = true) := rfl
    have e2 : ((QType.multiple == QType.truefalse) = false) := rfl
    simp only [mapWithIndex, List.filter_cons, mkQuestion_qtype, hc,
      Bool.false_eq_true, if_false, e1, e2, if_true, List.length_cons]
    omega

/-- A block of true/false candidates assembles to true/false questions
only. -/
theorem countMultiple_block_tf (caps : Capabilities) (concepts : List Concept) :
    ∀ (i : Nat) (l : List Candidate), (∀ c ∈ l, isTF c = true) →
      countMultiple (mapWithIndex (mkQuestion caps concepts) i l) = 0 ∧
      countTrueFalse (mapWithIndex (mkQuestion caps concepts) i l) = l.length := by
  intro i l
  induction l generalizing i with
  | nil => intro _; exact ⟨rfl, rfl⟩
  | cons c l ih =>
    intro h
    have hc := h c (List.mem_cons_self c l)
    obtain ⟨ihm, iht⟩ := ih (i + 1) (fun c' hc' => h c' (List.mem_cons_of_mem _ hc'))
    unfold countMultiple at ihm ⊢
    unfold countTrueFalse at iht ⊢
    have e3 : ((QType.truefalse == QType.truefalse) = true) := rfl
    have e4 : ((QType.truefalse == QType.multiple) = false) := rfl
    simp only [mapWithIndex, List.filter_cons, mkQuestion_qtype, hc,
      if_true, e3, e4, Bool.false_eq_true, if_false, List.length_cons]
    omega

/-- `roundSixty` is rounding-to-nearest of `0.6 × total` (the fractional
part of `3·total/5` is never one half, so the rounding is unambiguous). -/
theorem roundSixty_eq (N : Nat) :
    (roundSixty N : Int) = round ((0.6 : ℚ) * (N : ℚ)) := by
  rw [round_eq]
  have h : (0.6 : ℚ) * (N : ℚ) + 1 / 2 = ((6 * N + 5 : Nat) : ℚ) / ((10 : Nat) : ℚ) := by
    push_cast
    ring
  rw [h, Rat.floor_natCast_div_natCast]
  unfold roundSixty
  omega

/-- The only surfaced error is `MissingContentError`, raised exactly when
normalization leaves no sentences (§4.1, §7). -/
theorem generate_quiz_error_iff (caps : Capabilities) (text : String)
    (n : Nat) (ml : Bool) (e : QuizError) :
    generate_quiz caps text n ml = .error e ↔
      (splitSentences text = [] ∧ e = .missingContent) := by
  unfold generate_quiz
  cases h : splitSentences text with
  | nil => simp [eq_comm]
  | cons s ss => simp

end QuizEngine

/-!  ## Claim theorems  -/

namespace SensoryUI

/-- C10: `simulateServerPrediction` is a deterministic total function of
`(quizScore, attempts, mistakes, totalTimeMs)` (it is a pure Lean
function by construction); it predicts load "high" exactly when
`quizScore < 50` or `mistakes > 0.5 × attempts` or
`totalTimeMs > 120000`; otherwise "low" exactly when `quizScore > 85`
and `mistakes = 0` and `totalTimeMs < 45000`; otherwise "medium"; and
the recommended activity's difficulty is "Easier" iff the load is
"high", "Harder" iff "low", and "Balanced" iff "medium". -/
theorem simulateServerPrediction_spec (quizScore : Int)
    (attempts mistakes totalTimeMs : Nat) :
    ((simulateServerPrediction quizScore attempts mistakes totalTimeMs).predictedLoad = "high" ↔
      (quizScore < 50 ∨ (mistakes : ℚ) > 0.5 * (attempts : ℚ) ∨ totalTimeMs > 120000)) ∧
    ((simulateServerPrediction quizScore attempts mistakes totalTimeMs).predictedLoad = "low" ↔
      (¬(quizScore < 50 ∨ (mistakes : ℚ) > 0.5 * (attempts : ℚ) ∨ totalTimeMs > 120000) ∧
        (quizScore > 85 ∧ mistakes = 0 ∧ totalTimeMs < 45000))) ∧
    ((simulateServerPrediction quizScore attempts mistakes totalTimeMs).predictedLoad = "medium" ↔
      (¬(quizScore < 50 ∨ (mistakes : ℚ) > 0.5 * (attempts : ℚ) ∨ totalTimeMs > 120000) ∧
        ¬(quizScore > 85 ∧ mistakes = 0 ∧ totalTimeMs < 45000))) ∧
    ((simulateServerPrediction quizScore attempts mistakes totalTimeMs).recommendedActivity.difficulty = "Easier" ↔
      (simulateServerPrediction quizScore attempts mistakes totalTimeMs).predictedLoad = "high") ∧
    ((simulateServerPrediction quizScore attempts mistakes totalTimeMs).recommendedActivity.difficulty = "Harder" ↔
      (simulateServerPrediction quizScore attempts mistakes totalTimeMs).predictedLoad = "low") ∧
    ((simulateServerPrediction quizScore attempts mistakes totalTimeMs).recommendedActivity.difficulty = "Balanced" ↔
      (simulateServerPrediction quizScore attempts mistakes totalTimeMs).predictedLoad = "medium") := by
  have hcomm : ((mistakes : ℚ) > (attempts : ℚ) * 0.5) ↔ ((mistakes : ℚ) > 0.5 * (attempts : ℚ)) := by
    rw [mul_comm]
  by_cases h1 : quizScore < 50 ∨ (mistakes : ℚ) > (attempts : ℚ) * 0.5 ∨ totalTimeMs > 120000
  · have hload : predictedLoadOf quizScore attempts mistakes totalTimeMs = "high" := by
      unfold predictedLoadOf
      rw [if_pos h1]
    have h1' : quizScore < 50 ∨ (mistakes : ℚ) > 0.5 * (attempts : ℚ) ∨ totalTimeMs > 120000 := by
      rcases h1 with h | h | h
      exacts [Or.inl h, Or.inr (Or.inl (hcomm.mp h)), Or.inr (Or.inr h)]
    simp only [simulateServerPrediction, hload]
    refine ⟨iff_of_true trivial h1', iff_of_false (by decide) ?_,
      iff_of_false (by decide) ?_, ?_, ?_, ?_⟩
    · exact fun hc => hc.1 h1'
    · exact fun hc => hc.1 h1'
    · exact iff_of_true rfl trivial
    · exact iff_of_false (by decide) (by decide)
    · exact iff_of_false (by decide) (by decide)
  · have h1' : ¬(quizScore < 50 ∨ (mistakes : ℚ) > 0.5 * (attempts : ℚ) ∨ totalTimeMs > 120000) := by
      intro hc
      rcases hc with h | h | h
      exacts [h1 (Or.inl h), h1 (Or.inr (Or.inl (hcomm.mpr h))), h1 (Or.inr (Or.inr h))]
    by_cases h2 : quizScore > 85 ∧ mistakes = 0 ∧ totalTimeMs < 45000
    · have hload : predictedLoadOf quizScore attempts mistakes totalTimeMs = "low" := by
        unfold predictedLoadOf
        rw [if_neg h1, if_pos h2]
      simp only [simulateServerPrediction, hload]
      refine ⟨iff_of_false (by decide) ?_, iff_of_true trivial ⟨h1', h2⟩,
        iff_of_false (by decide) ?_, ?_, ?_, ?_⟩
      · exact fun hc => h1' hc
      · exact fun hc => hc.2 h2
      · exact iff_of_false (by decide) (by decide)
      · exact iff_of_true rfl trivial
      · exact iff_of_false (by decide) (by decide)
    · have hload : predictedLoadOf quizScore attempts mistakes totalTimeMs = "medium" := by
        unfold predictedLoadOf
        rw [if_neg h1, if_neg h2]
      simp only [simulateServerPrediction, hload]
      refine ⟨iff_of_false (by decide) ?_, iff_of_false (by decide) ?_,
        iff_of_true trivial ⟨h1', h2⟩, ?_, ?_, ?_⟩
      · exact fun hc => h1' hc
      · exact fun hc => h2 hc.2
      · exact iff_of_false (by decide) (by decide)
      · exact iff_of_false (by decide) (by decide)
      · exact iff_of_true rfl trivial

end SensoryUI

namespace SensoryUI

theorem countCorrect_append (a b : List (Nat × Bool)) :
    countCorrect (a ++ b) = countCorrect a + countCorrect b := by
  simp [countCorrect, List.filter_append]

/-- The perfect score: `Math.round((n / n) * 100) = 100`. -/
theorem scoreOf_self {len : Nat} (h : 0 < len) : scoreOf len len = 100 := by
  unfold scoreOf
  have hne : (len : ℚ) ≠ 0 := by
    exact_mod_cast Nat.pos_iff_ne_zero.mp h
  rw [div_self hne, one_mul]
  norm_num

/-- Unfolding of `answerQuestion` when no current question exists. -/
theorem answerQuestion_none {questions : List UIQuestion} {s : QuizUIState}
    (hget : questions[s.currentQuestionIndex]? = none) (optionIndex : Nat) :
    answerQuestion questions s optionIndex = s := by
  unfold answerQuestion
  rw [hget]

/-- Unfolding of `answerQuestion` on the current question. -/
theorem answerQuestion_some {questions : List UIQuestion} {s : QuizUIState}
    {current : UIQuestion}
    (hget : questions[s.currentQuestionIndex]? = some current) (optionIndex : Nat) :
    answerQuestion questions s optionIndex =
      { currentQuestionIndex :=
          if optionIndex == current.correctIndex
          then s.currentQuestionIndex + 1 else s.currentQuestionIndex,
        answers := s.answers ++ [(current.id, optionIndex == current.correctIndex)],
        attempts := s.attempts + 1,
        mistakes := s.mistakes + (if optionIndex == current.correctIndex then 0 else 1) } := by
  unfold answerQuestion
  rw [hget]

/-- C9: in every state reachable from `startQuizForLesson` by
`answerQuestion` calls, the number of answers recorded as correct equals
`currentQuestionIndex` (the number of questions already passed), which
never exceeds the question count; `answerQuestion` advances
`currentQuestionIndex` by exactly 1 on a correct answer and leaves it
unchanged otherwise (and only the question at `currentQuestionIndex`
can ever be answered, the index never moving backwards, so a passed
question is never answered again); consequently, whenever
`allQuestionsAnswered` holds, the score
`round(correctCount / questions.length × 100)` computed by
`submitQuizForAdaptation` equals exactly 100, so the `score < 50`
branch of the load heuristic is unreachable through quiz play. -/
theorem quizPlay_invariant (questions : List UIQuestion) (s : QuizUIState)
    (hreach : Reachable questions s) :
    countCorrect s.answers = s.currentQuestionIndex ∧
    s.currentQuestionIndex ≤ questions.length ∧
    (∀ optionIndex q, questions[s.currentQuestionIndex]? = some q →
      (answerQuestion questions s optionIndex).currentQuestionIndex =
        (if optionIndex == q.correctIndex
         then s.currentQuestionIndex + 1 else s.currentQuestionIndex)) ∧
    (∀ optionIndex,
      s.currentQuestionIndex ≤
        (answerQuestion questions s optionIndex).currentQuestionIndex) ∧
    (allQuestionsAnswered questions s →
      scoreOf (countCorrect s.answers) questions.length = 100 ∧
      ¬(scoreOf (countCorrect s.answers) questions.length < 50)) := by
  have hmain : countCorrect s.answers = s.currentQuestionIndex ∧
      s.currentQuestionIndex ≤ questions.length := by
    induction hreach with
    | start => exact ⟨rfl, Nat.zero_le _⟩
    | step optionIndex hr ih =>
      obtain ⟨ih1, ih2⟩ := ih
      rename_i s'
      cases hget : questions[s'.currentQuestionIndex]? with
      | none =>
        rw [answerQuestion_none hget]
        exact ⟨ih1, ih2⟩
      | some current =>
        have hlt : s'.currentQuestionIndex < questions.length := by
          have := List.getElem?_eq_some_iff.mp hget
          exact this.1
        rw [answerQuestion_some hget]
        by_cases hc : (optionIndex == current.correctIndex) = true
        · simp only [hc, if_true]
          constructor
          · rw [countCorrect_append, ih1]
            rfl
          · exact Nat.succ_le_of_lt hlt
        · have hc' : (optionIndex == current.correctIndex) = false := by
            simpa using hc
          simp only [hc', Bool.false_eq_true, if_false]
          constructor
          · rw [countCorrect_append, ih1]
            rfl
          · exact ih2
  refine ⟨hmain.1, hmain.2, ?_, ?_, ?_⟩
  · intro optionIndex q hget
    rw [answerQuestion_some hget]
  · intro optionIndex
    cases hget : questions[s.currentQuestionIndex]? with
    | none =>
      rw [answerQuestion_none hget]
    | some current =>
      rw [answerQuestion_some hget]
      by_cases hc : (optionIndex == current.correctIndex) = true
      · simp [hc]
      · have hc' : (optionIndex == current.correctIndex) = false := by
          simpa using hc
        simp [hc']
  · intro hall
    have hlen : countCorrect s.answers = questions.length := by
      have h1 := hall.2
      omega
    rw [hlen]
    have hs := scoreOf_self hall.1
    exact ⟨hs, by rw [hs]; omega⟩

end SensoryUI

namespace SensoryUI

/-- The question list of lesson 1 ("Introduction to Mathematics"). -/
def lesson1Questions : List UIQuestion :=
  (quizQuestionsByLesson.lookup 1).getD []

/-- Witness for C9: playing lesson 1 to completion (two correct answers,
option index 2 both times) reaches a state where all questions are
answered and the submitted score is exactly 100. -/
theorem quizPlay_invariant_witness :
    scoreOf
      (countCorrect
        ((answerQuestion lesson1Questions
            (answerQuestion lesson1Questions startQuiz 2) 2).answers))
      lesson1Questions.length = 100 :=
  ((quizPlay_invariant lesson1Questions
      (answerQuestion lesson1Questions (answerQuestion lesson1Questions startQuiz 2) 2)
      (Reachable.step 2 (Reachable.step 2 Reachable.start))).2.2.2.2
    (by decide)).1

end SensoryUI

namespace QuizEngine

/-- C1: for every input whose normalization yields zero usable sentences,
`generate_quiz` fails with `MissingContentError` and produces no partial
output (the `Except` result carries either the error or a quiz, never
both), and `MissingContentError` is the only error ever surfaced to the
caller. -/
theorem generateQuiz_missing_content (caps : Capabilities) (text : String)
    (n : Nat) (ml : Bool) :
    (generate_quiz caps text n ml = .error .missingContent ↔
      splitSentences text = []) ∧
    (∀ e, generate_quiz caps text n ml = .error e → e = .missingContent) := by
  constructor
  · constructor
    · intro h
      exact ((generate_quiz_error_iff caps text n ml _).mp h).1
    · intro h
      exact (generate_quiz_error_iff caps text n ml _).mpr ⟨h, rfl⟩
  · intro e h
    exact ((generate_quiz_error_iff caps text n ml e).mp h).2

/-- Witness for C1 at the empty and an all-whitespace input. -/
theorem generateQuiz_missing_content_witness :
    generate_quiz noCaps "" 10 true = .error .missingContent ∧
    generate_quiz noCaps "   " 3 false = .error .missingContent :=
  ⟨(generateQuiz_missing_content noCaps "" 10 true).1.mpr (by decide),
   (generateQuiz_missing_content noCaps "   " 3 false).1.mpr (by decide)⟩

/-- C2: every question of every quiz the engine returns has
`0 ≤ correct_index < |options|` and no two options equal under
case-insensitive whitespace-trimmed comparison; the hard-coded
`quizQuestionsByLesson` table of the client UI satisfies the same
invariants. -/
theorem quiz_invariants :
    (∀ (caps : Capabilities) (text : String) (n : Nat) (ml : Bool)
      (qs : List Question), generate_quiz caps text n ml = .ok qs →
      ∀ q ∈ qs, q.correct_index < q.options.length ∧ optionsDistinct q) ∧
    (∀ entry ∈ SensoryUI.quizQuestionsByLesson, ∀ uq ∈ entry.2,
      uq.correctIndex < uq.options.length ∧
      List.Pairwise (fun a b => normKey a ≠ normKey b) uq.options) := by
  constructor
  · intro caps text n ml qs h q hq
    unfold generate_quiz at h
    cases hs : splitSentences text with
    | nil =>
      rw [hs] at h
      cases h
    | cons s ss =>
      rw [hs] at h
      injection h with h'
      subst h'
      unfold generateCore at hq
      obtain ⟨i, c, _, rfl⟩ := mem_assemble hq
      exact mkQuestion_invariant _ _ _ _
  · decide

/-- Witness for C2: the multiple-choice question generated for
"x is y." satisfies both invariants. -/
theorem quiz_invariants_witness :
    (⟨"q1", QType.multiple, "What is x?",
      ["y", "x", "None of the above", "All of the above"], 0⟩ : Question).correct_index <
      (⟨"q1", QType.multiple, "What is x?",
        ["y", "x", "None of the above", "All of the above"], 0⟩ : Question).options.length ∧
    optionsDistinct ⟨"q1", QType.multiple, "What is x?",
      ["y", "x", "None of the above", "All of the above"], 0⟩ :=
  quiz_invariants.1 noCaps "x is y." 2 false
    [⟨"q1", QType.multiple, "What is x?",
      ["y", "x", "None of the above", "All of the above"], 0⟩,
     ⟨"q2", QType.truefalse, "True or False: x is y", ["True", "False"], 0⟩]
    (by decide)
    ⟨"q1", QType.multiple, "What is x?",
      ["y", "x", "None of the above", "All of the above"], 0⟩
    (by decide)

/-- C3: every `truefalse` question the engine returns carries exactly the
option pair `["True", "False"]` in that fixed order, and its
`correct_index` points at "True" (index 0) exactly when the underlying
templated statement is true (the true/false candidate's recorded truth
value). -/
theorem truefalse_options (caps : Capabilities) (text : String) (n : Nat)
    (ml : Bool) (qs : List Question)
    (h : generate_quiz caps text n ml = .ok qs) :
    ∀ q ∈ qs, q.qtype = .truefalse →
      q.options = ["True", "False"] ∧
      ∃ c ∈ candidatesFromText caps text ml, c.cat = .tfStatement ∧
        q.question = c.stem ∧
        q.correct_index = (if c.isTrue then 0 else 1) := by
  intro q hq htf
  unfold generate_quiz at h
  cases hs : splitSentences text with
  | nil =>
    rw [hs] at h
    cases h
  | cons s ss =>
    rw [hs] at h
    injection h with h'
    subst h'
    unfold generateCore at hq
    obtain ⟨i, c, hc, rfl⟩ := mem_assemble hq
    have htfc : isTF c = true := by
      rw [mkQuestion_qtype] at htf
      by_contra hfalse
      have hff : isTF c = false := by simpa using hfalse
      rw [hff] at htf
      simp at htf
    refine ⟨?_, c, ?_, ?_, ?_, ?_⟩
    · simp [mkQuestion, htfc]
    · unfold candidatesFromText
      rw [hs]
      exact hc
    · revert htfc
      unfold isTF
      cases c.cat <;> simp
    · simp [mkQuestion, htfc]
    · simp [mkQuestion, htfc]

/-- Witness for C3: the true/false question generated for "x is y."
(a true statement, so `correct_index = 0`). -/
theorem truefalse_options_witness :
    (⟨"q2", QType.truefalse, "True or False: x is y",
      ["True", "False"], 0⟩ : Question).options = ["True", "False"] ∧
    ∃ c ∈ candidatesFromText noCaps "x is y." false, c.cat = .tfStatement ∧
      (⟨"q2", QType.truefalse, "True or False: x is y",
        ["True", "False"], 0⟩ : Question).question = c.stem ∧
      (⟨"q2", QType.truefalse, "True or False: x is y",
        ["True", "False"], 0⟩ : Question).correct_index =
        (if c.isTrue then 0 else 1) :=
  truefalse_options noCaps "x is y." 2 false
    [⟨"q1", QType.multiple, "What is x?",
      ["y", "x", "None of the above", "All of the above"], 0⟩,
     ⟨"q2", QType.truefalse, "True or False: x is y", ["True", "False"], 0⟩]
    (by decide)
    ⟨"q2", QType.truefalse, "True or False: x is y", ["True", "False"], 0⟩
    (by decide) rfl

/-- C4: for every lesson text with at least one usable sentence whose
extraction yields at least one candidate ("valid" input) and every
requested count `n ≥ 1`, `generate_quiz` succeeds with between 1 and `n`
questions — exactly `min n |candidates|` — and returns strictly fewer
than `n` only when extraction yields fewer than `n` distinct candidates
(a best-effort shorter quiz, never an error). -/
theorem quiz_count_bounds (caps : Capabilities) (text : String) (n : Nat)
    (ml : Bool)
    (h1 : splitSentences text ≠ [])
    (h2 : candidatesFromText caps text ml ≠ [])
    (h3 : 1 ≤ n) :
    ∃ qs, generate_quiz caps text n ml = .ok qs ∧
      1 ≤ qs.length ∧ qs.length ≤ n ∧
      qs.length = min n (candidatesFromText caps text ml).length ∧
      (qs.length < n → (candidatesFromText caps text ml).length < n) := by
  cases hs : splitSentences text with
  | nil => exact absurd hs h1
  | cons s ss =>
    have hcands : candidatesFromText caps text ml =
        candidatesOf (conceptsOf (effCaps caps ml) (s :: ss)) (factsOf (s :: ss)) := by
      unfold candidatesFromText
      rw [hs]
    refine ⟨generateCore (effCaps caps ml) (s :: ss) n, ?_, ?_, ?_, ?_, ?_⟩
    · unfold generate_quiz
      rw [hs]
    all_goals
      unfold generateCore
      rw [assemble_length, ← hcands]
    · have hpos : 0 < (candidatesFromText caps text ml).length :=
        List.length_pos.mpr h2
      omega
    · omega
    · omega

/-- Witness for C4 at "x is y." with `n = 2`: exactly 2 questions. -/
theorem quiz_count_bounds_witness :
    ∃ qs, generate_quiz noCaps "x is y." 2 false = .ok qs ∧
      1 ≤ qs.length ∧ qs.length ≤ 2 ∧
      qs.length = min 2 (candidatesFromText noCaps "x is y." false).length ∧
      (qs.length < 2 → (candidatesFromText noCaps "x is y." false).length < 2) :=
  quiz_count_bounds noCaps "x is y." 2 false (by decide) (by decide) (by decide)

/-- When both categories hold enough candidates, the assembler hits the
60/40 target exactly. -/
theorem assemble_counts (caps : Capabilities) (n : Nat) (cands : List Candidate)
    (concepts : List Concept)
    (hmc : roundSixty (min n cands.length) ≤
      (cands.filter (fun c => !(isTF c))).length)
    (htf : min n cands.length - roundSixty (min n cands.length) ≤
      (cands.filter isTF).length) :
    countMultiple (assemble caps n cands concepts) =
      roundSixty (min n cands.length) ∧
    countTrueFalse (assemble caps n cands concepts) =
      min n cands.length - roundSixty (min n cands.length) := by
  have hassem : assemble caps n cands concepts =
      mapWithIndex (mkQuestion caps concepts) 0
        ((cands.filter (fun c => !(isTF c))).take
          (min n cands.length -
            min (min n cands.length -
                min (roundSixty (min n cands.length))
                  (cands.filter (fun c => !(isTF c))).length)
              (cands.filter isTF).length) ++
         (cands.filter isTF).take
          (min (min n cands.length -
              min (roundSixty (min n cands.length))
                (cands.filter (fun c => !(isTF c))).length)
            (cands.filter isTF).length)) := rfl
  have hmcmem : ∀ c ∈ (cands.filter (fun c => !(isTF c))).take
      (min n cands.length -
        min (min n cands.length -
            min (roundSixty (min n cands.length))
              (cands.filter (fun c => !(isTF c))).length)
          (cands.filter isTF).length), isTF c = false := by
    intro c hc
    have := (List.mem_filter.mp ((List.take_sublist _ _).subset hc)).2
    simpa using this
  have htfmem : ∀ c ∈ (cands.filter isTF).take
      (min (min n cands.length -
          min (roundSixty (min n cands.length))
            (cands.filter (fun c => !(isTF c))).length)
        (cands.filter isTF).length), isTF c = true := by
    intro c hc
    exact (List.mem_filter.mp ((List.take_sublist _ _).subset hc)).2
  obtain ⟨hm1, ht1⟩ := countMultiple_block_mc caps concepts 0 _ hmcmem
  obtain ⟨hm2, ht2⟩ := countMultiple_block_tf caps concepts
    (0 + ((cands.filter (fun c => !(isTF c))).take
      (min n cands.length -
        min (min n cands.length -
            min (roundSixty (min n cands.length))
              (cands.filter (fun c => !(isTF c))).length)
          (cands.filter isTF).length)).length) _ htfmem
  rw [hassem, mapWithIndex_append]
  have hrs : roundSixty (min n cands.length) ≤ min n cands.length := by
    unfold roundSixty
    omega
  constructor
  · rw [countMultiple_append, hm1, hm2]
    simp only [List.length_take]
    omega
  · rw [countTrueFalse_append, ht1, ht2]
    simp only [List.length_take]
    omega

/-- The lesson text of the C5 counterexample: five cause-effect
sentences, no concepts, hence only true/false candidates. -/
def causeOnlyText : String :=
  "a leads to b. c leads to d. e leads to f. g results in h. j results in k."

/-- C5 as stated is false: on `causeOnlyText` with `n = 5` the engine
succeeds with 5 questions, all true/false, so the multiple-choice count
0 differs from `round(0.6 × 5) = 3` by more than 1. -/
theorem type_ratio_counterexample :
    isOkB (generate_quiz noCaps causeOnlyText 5 false) = true ∧
    (okQuestions (generate_quiz noCaps causeOnlyText 5 false)).length = 5 ∧
    countMultiple (okQuestions (generate_quiz noCaps causeOnlyText 5 false)) = 0 ∧
    roundSixty (okQuestions (generate_quiz noCaps causeOnlyText 5 false)).length = 3 ∧
    ¬(roundSixty (okQuestions (generate_quiz noCaps causeOnlyText 5 false)).length ≤
        countMultiple (okQuestions (generate_quiz noCaps causeOnlyText 5 false)) + 1) := by
  refine ⟨by decide, by decide, by decide, by decide, by decide⟩

/-- C5 amended: whenever both categories supply enough candidates for
the 60/40 split (the shortfall case is instead back-filled from the
other category, §4.8), the number of multiple-choice questions equals
`round(0.6 × N)` exactly (hence within ±1), and all remaining questions
are true/false. -/
theorem type_ratio_amended (caps : Capabilities) (text : String) (n : Nat)
    (ml : Bool) (qs : List Question)
    (h : generate_quiz caps text n ml = .ok qs)
    (hmc : roundSixty (min n (candidatesFromText caps text ml).length) ≤
      ((candidatesFromText caps text ml).filter (fun c => !(isTF c))).length)
    (htf : min n (candidatesFromText caps text ml).length -
        roundSixty (min n (candidatesFromText caps text ml).length) ≤
      ((candidatesFromText caps text ml).filter isTF).length) :
    ((countMultiple qs : Int) = round ((0.6 : ℚ) * (qs.length : ℚ))) ∧
    countTrueFalse qs = qs.length - countMultiple qs := by
  unfold generate_quiz at h
  cases hs : splitSentences text with
  | nil =>
    rw [hs] at h
    cases h
  | cons s ss =>
    rw [hs] at h
    injection h with h'
    subst h'
    have hcands : candidatesFromText caps text ml =
        candidatesOf (conceptsOf (effCaps caps ml) (s :: ss)) (factsOf (s :: ss)) := by
      unfold candidatesFromText
      rw [hs]
    rw [hcands] at hmc htf
    unfold generateCore
    obtain ⟨hm, ht⟩ := assemble_counts (effCaps caps ml) n _ _ hmc htf
    have hlen : (assemble (effCaps caps ml) n
        (candidatesOf (conceptsOf (effCaps caps ml) (s :: ss)) (factsOf (s :: ss)))
        (conceptsOf (effCaps caps ml) (s :: ss))).length =
        min n (candidatesOf (conceptsOf (effCaps caps ml) (s :: ss))
          (factsOf (s :: ss))).length := assemble_length _ _ _ _
    constructor
    · rw [hm, hlen, ← roundSixty_eq]
    · rw [ht, hm, hlen]

/-- Witness for the amended C5 at "x is y." with `n = 2`: one
multiple-choice and one true/false question, and `round(0.6 × 2) = 1`. -/
theorem type_ratio_amended_witness :
    ((countMultiple
        [⟨"q1", QType.multiple, "What is x?",
          ["y", "x", "None of the above", "All of the above"], 0⟩,
         ⟨"q2", QType.truefalse, "True or False: x is y", ["True", "False"], 0⟩] : Int) =
      round ((0.6 : ℚ) *
        (([⟨"q1", QType.multiple, "What is x?",
            ["y", "x", "None of the above", "All of the above"], 0⟩,
           ⟨"q2", QType.truefalse, "True or False: x is y",
            ["True", "False"], 0⟩] : List Question).length : ℚ))) ∧
    countTrueFalse
        [⟨"q1", QType.multiple, "What is x?",
          ["y", "x", "None of the above", "All of the above"], 0⟩,
         ⟨"q2", QType.truefalse, "True or False: x is y", ["True", "False"], 0⟩] =
      ([⟨"q1", QType.multiple, "What is x?",
          ["y", "x", "None of the above", "All of the above"], 0⟩,
        ⟨"q2", QType.truefalse, "True or False: x is y",
          ["True", "False"], 0⟩] : List Question).length -
        countMultiple
          [⟨"q1", QType.multiple, "What is x?",
            ["y", "x", "None of the above", "All of the above"], 0⟩,
           ⟨"q2", QType.truefalse, "True or False: x is y", ["True", "False"], 0⟩] :=
  type_ratio_amended noCaps "x is y." 2 false
    [⟨"q1", QType.multiple, "What is x?",
      ["y", "x", "None of the above", "All of the above"], 0⟩,
     ⟨"q2", QType.truefalse, "True or False: x is y", ["True", "False"], 0⟩]
    (by decide) (by decide) (by decide)

/-- C6: rule-only mode is deterministic — `generate_quiz(text, n,
use_ml=false)` yields identical output on identical input regardless of
the process's capability state (so also across calls and across runs):
`use_ml=false` forces every optional capability off (§4.7) and the rest
of the pipeline is a pure function of the text. -/
theorem rule_only_deterministic (caps₁ caps₂ : Capabilities) (text : String)
    (n : Nat) :
    generate_quiz caps₁ text n false = generate_quiz caps₂ text n false := rfl

/-- Capability state with only the rewriting capability loaded, used to
refute C7 as stated. -/
def rewriteOnlyCaps : Capabilities :=
  ⟨none, none, some (fun s => some ("Could you explain: " ++ s))⟩

/-- C7 as stated is false: with the semantic-similarity capability
failed (`similarity = none`) but the rewriting capability loaded,
`use_ml=true` and `use_ml=false` both succeed on "x is y." yet produce
different question lists (the definition stem is rewritten). -/
theorem ml_fallback_counterexample :
    rewriteOnlyCaps.similarity = none ∧
    isOkB (generate_quiz rewriteOnlyCaps "x is y." 10 true) = true ∧
    isOkB (generate_quiz rewriteOnlyCaps "x is y." 10 false) = true ∧
    okQuestions (generate_quiz rewriteOnlyCaps "x is y." 10 true) ≠
      okQuestions (generate_quiz rewriteOnlyCaps "x is y." 10 false) := by
  refine ⟨rfl, by decide, by decide, by decide⟩

/-- C7 amended: when every optional ML capability fails to load,
`use_ml=true` produces output byte-identical to `use_ml=false` on the
same input, and no ML-related degradation ever surfaces as an exception:
the only error any call can raise is `MissingContentError`. -/
theorem ml_fallback_amended (caps caps' : Capabilities)
    (h1 : caps.syntactic = none) (h2 : caps.similarity = none)
    (h3 : caps.rewriting = none) (text : String) (n : Nat) :
    generate_quiz caps text n true = generate_quiz caps' text n false ∧
    (∀ e, generate_quiz caps text n true = .error e → e = .missingContent) := by
  obtain ⟨syn, sim, rwr⟩ := caps
  simp only at h1 h2 h3
  subst h1 h2 h3
  constructor
  · rfl
  · intro e h
    exact ((generate_quiz_error_iff noCaps text n true e).mp h).2

/-- Witness for the amended C7: all-capabilities-failed hybrid mode
matches rule-only mode (even against a different capability state). -/
theorem ml_fallback_amended_witness :
    generate_quiz noCaps "x is y." 10 true =
      generate_quiz rewriteOnlyCaps "x is y." 10 false ∧
    (∀ e, generate_quiz noCaps "x is y." 10 true = .error e →
      e = .missingContent) :=
  ml_fallback_amended noCaps rewriteOnlyCaps rfl rfl rfl "x is y." 10

/-- C8: the engine has a single entry point
`generate_quiz(lesson_text, num_questions = 10, use_ml = true)` whose
defaults are 10 and `true`, returning a sequence of Question records
with exactly the fields `id`, `type` (`multiple` or `truefalse`),
`question`, `options` and `correct_index` (the structure eta law names
them exhaustively). -/
theorem entry_point_shape :
    (∀ (caps : Capabilities) (text : String),
      generate_quiz caps text = generate_quiz caps text 10 true) ∧
    (∀ (caps : Capabilities) (text : String) (n : Nat) (ml : Bool)
      (qs : List Question), generate_quiz caps text n ml = .ok qs →
      ∀ q ∈ qs, (q.qtype = .multiple ∨ q.qtype = .truefalse) ∧
        q = ⟨q.id, q.qtype, q.question, q.options, q.correct_index⟩) := by
  constructor
  · intro caps text
    rfl
  · intro caps text n ml qs h q hq
    refine ⟨?_, rfl⟩
    unfold generate_quiz at h
    cases hs : splitSentences text with
    | nil =>
      rw [hs] at h
      cases h
    | cons s ss =>
      rw [hs] at h
      injection h with h'
      subst h'
      unfold generateCore at hq
      obtain ⟨i, c, _, rfl⟩ := mem_assemble hq
      rw [mkQuestion_qtype]
      cases hc : isTF c
      · simp
      · simp

/-- Witness for C8 at "x is y." with the defaults and a generated
multiple-choice question. -/
theorem entry_point_shape_witness :
    (generate_quiz noCaps "x is y." = generate_quiz noCaps "x is y." 10 true) ∧
    (((⟨"q1", QType.multiple, "What is x?",
        ["y", "x", "None of the above", "All of the above"], 0⟩ : Question).qtype =
          QType.multiple ∨
      (⟨"q1", QType.multiple, "What is x?",
        ["y", "x", "None of the above", "All of the above"], 0⟩ : Question).qtype =
          QType.truefalse)) :=
  ⟨entry_point_shape.1 noCaps "x is y.",
   (entry_point_shape.2 noCaps "x is y." 2 false
      [⟨"q1", QType.multiple, "What is x?",
        ["y", "x", "None of the above", "All of the above"], 0⟩,
       ⟨"q2", QType.truefalse, "True or False: x is y", ["True", "False"], 0⟩]
      (by decide)
      ⟨"q1", QType.multiple, "What is x?",
        ["y", "x", "None of the above", "All of the above"], 0⟩
      (by decide)).1⟩

end QuizEngine
